import Mathlib

/-
Verification development for the KVV tracker gateway (src/main.cpp).

The core logic of the program is shallowly embedded here:
  * a model of nlohmann::json values and of the json accessors the code
    uses (`contains`, `operator[]`, `value(key, default)`, range-for
    iteration), with `value`'s throwing behaviour made explicit via
    `Except`;
  * `std::stoi` with its throwing behaviour on non-numeric strings;
  * `normalizeResponse` (departure-board normalization, including the
    detailed-mode accessibility inference);
  * `searchStopsProvider` (stop search, with the HTTP exchange abstracted
    as the pair of the upstream status code and the parsed body);
  * the boolean query-parameter parsing, the cache (get/put with a fixed
    TTL over a monotonic clock in seconds), the cache-key derivation and
    the track filter from the two route handlers.

nlohmann::json stores object members in key order; none of the
properties below inspect member order (only lookups), so objects are
represented as association lists in insertion order.
-/

set_option maxRecDepth 10000

/-- A JSON value as produced by nlohmann::json: null, boolean, number
(integral payloads suffice for the fields the program touches), string,
array, or object (a list of key/value members). -/
inductive Json where
  | null
  | bool (b : Bool)
  | num (n : Int)
  | str (s : String)
  | arr (elems : List Json)
  | obj (fields : List (String × Json))

/-- Exceptions the embedded code can raise: `std::invalid_argument`
(from `std::stoi` on a string with no leading digits) and
`nlohmann::json::type_error` (from `value()` on a non-object or on a
member of the wrong type). -/
inductive Exn where
  | invalidArgument
  | typeError
deriving DecidableEq

/-- First-match association-list lookup (the behaviour of
`json::find` / `std::map::find` on the unique-key maps the code uses). -/
def assocFind {β : Type} : List (String × β) → String → Option β
  | [], _ => none
  | (k, v) :: t, a => if k == a then some v else assocFind t a

/-- Lookup of an object member; `none` on non-objects or missing keys. -/
def jFind : Json → String → Option Json
  | Json.obj fs, k => assocFind fs k
  | _, _ => none

/-- `j.contains(k)`: true iff `j` is an object that has member `k`
(nlohmann returns false on arrays and primitives). -/
def jContainsKey (j : Json) (k : String) : Bool :=
  (jFind j k).isSome

/-- `j[k]` in a read context, always used by the code behind a
`contains` guard. -/
def jGet (j : Json) (k : String) : Json :=
  (jFind j k).getD Json.null

/-- `j.is_array()`. -/
def Json.isArr : Json → Bool
  | Json.arr _ => true
  | _ => false

/-- The element list of an array, used after an `is_array()` guard. -/
def jArrOf : Json → List Json
  | Json.arr xs => xs
  | _ => []

/-- Range-for iteration over a json value, as nlohmann defines it:
null is an empty range, arrays iterate their elements, objects iterate
their member values, primitives iterate once over themselves. -/
def jIter : Json → List Json
  | Json.null => []
  | Json.arr xs => xs
  | Json.obj fs => fs.map (fun f => f.2)
  | j => [j]

/-- `j.value(k, default)` with a string default: throws `type_error` when
`j` is not an object or when the member exists but is not a string;
returns the default when the member is absent. -/
def jValueS (j : Json) (k : String) (d : String) : Except Exn String :=
  match j with
  | Json.obj fs =>
    match assocFind fs k with
    | none => Except.ok d
    | some (Json.str s) => Except.ok s
    | some _ => Except.error Exn.typeError
  | _ => Except.error Exn.typeError

/-- Decimal value of a digit run. -/
def digitsToInt (ds : List Char) : Int :=
  ds.foldl (fun acc c => acc * 10 + Int.ofNat (c.toNat - Char.toNat '0')) 0

/-- `std::stoi`: skip leading whitespace, take an optional sign, then a
maximal run of digits (trailing characters are ignored); throws
`std::invalid_argument` when no digit is found. -/
def stoi (s : String) : Except Exn Int :=
  let cs := s.toList.dropWhile (fun c => c.isWhitespace)
  let signed : Bool × List Char :=
    match cs with
    | '-' :: t => (true, t)
    | '+' :: t => (false, t)
    | _ => (false, cs)
  let ds := signed.2.takeWhile (fun c => c.isDigit)
  if ds.isEmpty then Except.error Exn.invalidArgument
  else Except.ok (if signed.1 then - digitsToInt ds else digitsToInt ds)

/-- Per-character ASCII lowering, the effect of the `std::tolower`
transform in `toLower` / `strToBool`. -/
def lowerStr (s : String) : String :=
  String.mk (s.toList.map Char.toLower)

/-- The `strToBool` lambda inside `normalizeResponse`: lowercase the
string and accept "1", "true" or "yes". -/
def strToBool (v : String) : Bool :=
  let s := lowerStr v
  s == "1" || s == "true" || s == "yes"

/-- `std::string::find(needle) != npos`: the needle occurs somewhere in
the haystack (the empty needle always occurs). -/
def strHas : List Char → List Char → Bool
  | [], needle => needle.isEmpty
  | c :: t, needle => needle.isPrefixOf (c :: t) || strHas t needle

/-- `h.value("hint", h.value("content", ""))`: both lookups evaluate (the
inner one supplies the default argument), so a throw from either
propagates. -/
def hintText (h : Json) : Except Exn String := do
  let inner ← jValueS h "content" ""
  jValueS h "hint" inner

/-- The four mutable flags of the structured-attribute scan in the
detailed branch of `normalizeResponse`. -/
structure AttrState where
  hasPlanLowFloor : Bool
  planLowFloor : Bool
  hasPlanWheelchair : Bool
  planWheelchair : Bool

def initAttrState : AttrState :=
  ⟨false, false, false, false⟩

/-- One iteration of the `attrs` loop: read `name` and `value`, lower the
name, and record the flag for `PlanLowFloorVehicle` /
`PlanWheelchairAccess` matches (later entries overwrite earlier ones). -/
def attrStep (s : AttrState) (a : Json) : Except Exn AttrState := do
  let name ← jValueS a "name" ""
  let value ← jValueS a "value" ""
  if lowerStr name == "planlowfloorvehicle" then
    pure { s with hasPlanLowFloor := true, planLowFloor := strToBool value }
  else if lowerStr name == "planwheelchairaccess" then
    pure { s with hasPlanWheelchair := true, planWheelchair := strToBool value }
  else
    pure s

def scanAttrs : AttrState → List Json → Except Exn AttrState
  | s, [] => Except.ok s
  | s, a :: t => do
    let s2 ← attrStep s a
    scanAttrs s2 t

/-- The low-floor substring tests applied to one hint text. -/
def lowFloorHintIn (txt : String) : Bool :=
  strHas txt.toList "Niederflur".toList || strHas txt.toList "low floor".toList ||
    strHas txt.toList "lowFloor".toList

/-- The wheelchair substring tests applied to one hint text. -/
def wheelchairHintIn (txt : String) : Bool :=
  strHas txt.toList "Rollstuhl".toList || strHas txt.toList "wheelchair".toList ||
    strHas txt.toList "barrierefrei".toList || strHas txt.toList "barrier-free".toList

/-- The serving-line `hints` loop of the detailed branch: accumulate the
two hint booleans over the hint texts. -/
def scanHints : Bool × Bool → List Json → Except Exn (Bool × Bool)
  | p, [] => Except.ok p
  | p, h :: t => do
    let txt ← hintText h
    scanHints (p.1 || lowFloorHintIn txt, p.2 || wheelchairHintIn txt) t

/-- The structured-attribute scan of the detailed branch: runs only
when `attrs` is present and an array; otherwise all four flags stay
false. -/
def astOf (dep : Json) : Except Exn AttrState :=
  if jContainsKey dep "attrs" && (jGet dep "attrs").isArr then
    scanAttrs initAttrState (jArrOf (jGet dep "attrs"))
  else pure initAttrState

/-- The serving-line hint scan of the detailed branch: runs only when
the serving line's `hints` member is present and an array. -/
def hintFlagsOf (sl : Json) : Except Exn (Bool × Bool) :=
  if jContainsKey sl "hints" && (jGet sl "hints").isArr then
    scanHints (false, false) (jArrOf (jGet sl "hints"))
  else pure (false, false)

/-- The optional `train_type` member of a detailed record. -/
def trainTypeFieldsOf (sl : Json) : Except Exn (List (String × Json)) :=
  if jContainsKey sl "trainType" then do
    let s ← jValueS sl "trainType" ""
    pure [("train_type", Json.str s)]
  else pure []

/-- The optional `train_length` / `train_composition` member of a
detailed record (`trainLength` shadows `trainComposition`). -/
def trainLenFieldsOf (sl : Json) : Except Exn (List (String × Json)) :=
  if jContainsKey sl "trainLength" then do
    let s ← jValueS sl "trainLength" ""
    pure [("train_length", Json.str s)]
  else if jContainsKey sl "trainComposition" then do
    let s ← jValueS sl "trainComposition" ""
    pure [("train_composition", Json.str s)]
  else pure []

/-- The detailed-mode block of `normalizeResponse` for one departure:
structured attributes take precedence over the hint scan, and
`wheelchair_accessible = wheelchair || lowFloor`. -/
def detailedFields (dep sl : Json) : Except Exn (List (String × Json)) := do
  let ast ← astOf dep
  let hs ← hintFlagsOf sl
  let tt ← trainTypeFieldsOf sl
  let tl ← trainLenFieldsOf sl
  pure ([("low_floor", Json.bool (if ast.hasPlanLowFloor then ast.planLowFloor else hs.1)),
         ("wheelchair_accessible", Json.bool
           ((if ast.hasPlanWheelchair then ast.planWheelchair else hs.2) ||
            (if ast.hasPlanLowFloor then ast.planLowFloor else hs.1)))] ++ tt ++ tl)

/-- The delay parse, the one spot the code wraps in try/catch: any
throw there (a bad type from `value` or a non-numeric string in `stoi`)
degrades to `delay_minutes = 0`; no field when the flag is off or the
member is absent. -/
def delayFieldsOf (includeDelay : Bool) (sl : Json) : List (String × Json) :=
  if includeDelay && jContainsKey sl "delay" then
    match (do
      let s ← jValueS sl "delay" "0"
      stoi s : Except Exn Int) with
    | Except.ok n => [("delay_minutes", Json.num n)]
    | Except.error _ => [("delay_minutes", Json.num 0)]
  else []

/-- The `mot` value: `std::stoi(sl.value("motType", "-1"))` when the
member is present (unguarded, so a throw propagates), -1 otherwise. -/
def motOf (sl : Json) : Except Exn Int :=
  if jContainsKey sl "motType" then do
    let s ← jValueS sl "motType" "-1"
    stoi s
  else pure (-1)

/-- The detailed block runs only in detailed mode. -/
def detailFieldsOf (detailed : Bool) (dep sl : Json) : Except Exn (List (String × Json)) :=
  if detailed then detailedFields dep sl else pure []

/-- The `servingLine` block of `normalizeResponse` for one departure,
producing the fields it inserts (in insertion order); like the source it
reads `dep["servingLine"]` afresh at each use. Absent `servingLine`
produces no fields at all. -/
def servingLineFields (detailed includeDelay : Bool) (dep : Json) :
    Except Exn (List (String × Json)) :=
  if jContainsKey dep "servingLine" then do
    let line ← jValueS (jGet dep "servingLine") "number" "?"
    let dir ← jValueS (jGet dep "servingLine") "direction" "Unknown"
    let mot ← motOf (jGet dep "servingLine")
    let detailFields ← detailFieldsOf detailed dep (jGet dep "servingLine")
    pure ([("line", Json.str line), ("direction", Json.str dir),
           ("mot", Json.num mot)] ++ delayFieldsOf includeDelay (jGet dep "servingLine") ++
          detailFields)
  else pure []

/-- Platform resolution: `platform`, else `platformName`, else the
sentinel "Unknown". -/
def platformField (dep : Json) : Except Exn String :=
  if jContainsKey dep "platform" then jValueS dep "platform" ""
  else if jContainsKey dep "platformName" then jValueS dep "platformName" ""
  else pure "Unknown"

/-- `minutes_remaining`: `std::stoi(dep.value("countdown", "0"))`, with
no try/catch around it in the source; absent countdown gives 0. -/
def minutesField (dep : Json) : Except Exn Int :=
  if jContainsKey dep "countdown" then do
    let s ← jValueS dep "countdown" "0"
    stoi s
  else pure 0

/-- Texts of the per-departure hint entries, in order. -/
def hintTexts : List Json → Except Exn (List String)
  | [] => Except.ok []
  | h :: t => do
    let txt ← hintText h
    let rest ← hintTexts t
    pure (txt :: rest)

/-- The per-departure `hints` array of detailed mode: empty texts are
dropped and the field is omitted when nothing remains. -/
def hintsFields (detailed : Bool) (dep : Json) : Except Exn (List (String × Json)) :=
  if detailed && jContainsKey dep "hints" && (jGet dep "hints").isArr then do
    let texts ← hintTexts (jArrOf (jGet dep "hints"))
    match texts.filter (fun t => !(t.isEmpty)) with
    | [] => pure []
    | ts => pure [("hints", Json.arr (ts.map Json.str))]
  else pure []

/-- One iteration of the `departureList` loop of `normalizeResponse`:
the record built for one raw departure entry. All member keys written in
one iteration are distinct, so the record is the concatenation of the
field groups in insertion order. -/
def normalizeEntry (detailed includeDelay : Bool) (dep : Json) : Except Exn Json := do
  let slFields ← servingLineFields detailed includeDelay dep
  let pf ← platformField dep
  let mins ← minutesField dep
  let hf ← hintsFields detailed dep
  pure (Json.obj (slFields ++
        [("platform", Json.str pf), ("minutes_remaining", Json.num mins),
         ("is_realtime", Json.bool (jContainsKey dep "realDateTime"))] ++ hf))

/-- The `departureList` loop: one output record per iterated entry; a
throw anywhere abandons the whole response. -/
def normalizeList (detailed includeDelay : Bool) : List Json → Except Exn (List Json)
  | [] => Except.ok []
  | dep :: t => do
    let item ← normalizeEntry detailed includeDelay dep
    let rest ← normalizeList detailed includeDelay t
    pure (item :: rest)

/-- `normalizeResponse`: empty array when the payload has no
`departureList` member, else the normalized records. -/
def normalizeResponse (providerData : Json) (detailed includeDelay : Bool) :
    Except Exn Json :=
  if !(jContainsKey providerData "departureList") then Except.ok (Json.arr [])
  else do
    let items ← normalizeList detailed includeDelay (jIter (jGet providerData "departureList"))
    pure (Json.arr items)

/-- The query parameters `searchStopsProvider` sends to the upstream
stop-finder endpoint. -/
def searchRequestParams (query : String) : List (String × String) :=
  [("outputFormat", "rapidJSON"), ("type_sf", "any"), ("name_sf", query),
   ("anyObjFilter_sf", "2"), ("coordOutputFormat", "WGS84[dd.ddddd]")]

/-- `searchStopsProvider`, with the HTTP exchange abstracted as the
upstream status code and the parsed body (`none` = body is not valid
JSON). The `city` and `includeLocation` parameters are accepted but
never read, exactly as in the source ("Accepts 'city' parameter but
ignores it"). On success the parsed body is returned verbatim. -/
def searchStopsProvider (query city : String) (includeLocation : Bool)
    (status : Nat) (body : Option Json) : Json :=
  if query.isEmpty then Json.arr []
  else if status != 200 then Json.obj [("error", Json.str "Upstream Error")]
  else match body with
    | some j => j
    | none => Json.obj [("error", Json.str "Invalid JSON from Provider Search")]

/-- The boolean query-parameter parse used for `location`, `detailed`
and `delay` in the two routes: present and exactly "true" or "1"
(case-sensitive). `none` models an absent parameter (null from
`url_params.get`). -/
def parseBoolParam : Option String → Bool
  | none => false
  | some s => s == "true" || s == "1"

/-- A cached entry: the normalized payload and the steady-clock instant
(in seconds) at which it was stored. -/
structure CacheEntry where
  data : Json
  timestamp : Nat

def CACHE_TTL_SECONDS : Nat := 30

/-- `stop_cache.find(key)`. -/
def cacheLookup : List (String × CacheEntry) → String → Option CacheEntry
  | [], _ => none
  | (k, e) :: t, a => if k == a then some e else cacheLookup t a

/-- `stop_cache[key] = entry`: overwrite an existing binding, else
insert; entries are never erased. -/
def cachePut : List (String × CacheEntry) → String → CacheEntry → List (String × CacheEntry)
  | [], k, e => [(k, e)]
  | (k2, e2) :: t, k, e => if k2 == k then (k, e) :: t else (k2, e2) :: cachePut t k e

/-- The cache read of the departures route: a hit needs the key present
and the entry's age strictly below the TTL. -/
def cacheGet (c : List (String × CacheEntry)) (k : String) (now : Nat) : Option Json :=
  match cacheLookup c k with
  | none => none
  | some e => if now - e.timestamp < CACHE_TTL_SECONDS then some e.data else none

/-- The cache-key derivation of the departures route. -/
def cacheKeyOf (stopId : String) (detailed includeDelay : Bool) : String :=
  stopId ++ (if detailed then "_detailed" else "") ++ (if includeDelay then "_delay" else "")

/-- The per-record track match of the departures route: exact equality;
else, when the platform is strictly longer and starts with the token,
match exactly when the next character is not a digit (with no further
fallback); else the contains-with-boundary check. -/
def trackMatch (platform req : List Char) : Bool :=
  if platform == req then true
  else if decide (req.length < platform.length) && req.isPrefixOf platform then
    !((platform.getD req.length ' ').isDigit)
  else if strHas platform (' ' :: req) || strHas platform ("Gleis ".toList ++ req) then
    true
  else false

/-- `dep.value("platform", "")` on a normalized record. -/
def recordPlatform (dep : Json) : Except Exn String :=
  jValueS dep "platform" ""

/-- The track-filter loop of the departures route: keep the matching
records in input order. -/
def trackFilterRoute : List Json → String → Except Exn (List Json)
  | [], _ => Except.ok []
  | dep :: t, req => do
    let p ← recordPlatform dep
    let rest ← trackFilterRoute t req
    if trackMatch p.toList req.toList then pure (dep :: rest) else pure rest

/- Claim-side helper definitions (written from the spec's words, used to
state the ranking / best-match / boolean-parameter claims against the
code-side definitions above). -/

/-- The `matchQuality` numbers of a candidate array, in response order. -/
def matchQualities (j : Json) : List Int :=
  (jArrOf j).filterMap (fun e =>
    match jFind e "matchQuality" with
    | some (Json.num n) => some n
    | _ => none)

/-- Non-increasing order on an integer list. -/
def sortedNonIncr : List Int → Bool
  | [] => true
  | [_] => true
  | a :: b :: t => decide (b ≤ a) && sortedNonIncr (b :: t)

/-- How many candidates of an array carry `isBest = true`. -/
def isBestCount (j : Json) : Nat :=
  ((jArrOf j).filter (fun e =>
    match jFind e "isBest" with
    | some (Json.bool true) => true
    | _ => false)).length

/-- How many candidates carry the maximal `matchQuality` present. -/
def maxQualityCount (j : Json) : Nat :=
  match matchQualities j with
  | [] => 0
  | q :: t =>
    let m := t.foldl (fun a b => max a b) q
    ((matchQualities j).filter (fun x => x == m)).length

/-- The spec's reading of a boolean query parameter: case-insensitive
"true", "1" or "yes". -/
def claimBoolParam : Option String → Bool
  | none => false
  | some s => lowerStr s == "true" || lowerStr s == "1" || lowerStr s == "yes"

/-- An upstream body (the bare candidate-array shape, which
`extractStopRecords` in the source recognizes as a valid search result)
whose candidates arrive in increasing quality order. -/
def c1Body : Json :=
  Json.arr [Json.obj [("id", Json.str "de:08212:1"), ("matchQuality", Json.num 1)],
            Json.obj [("id", Json.str "de:08212:2"), ("matchQuality", Json.num 5)]]

/-- An upstream body in which no candidate carries `isBest` at all. -/
def c2Body : Json :=
  Json.arr [Json.obj [("id", Json.str "de:a"), ("matchQuality", Json.num 5)],
            Json.obj [("id", Json.str "de:b"), ("matchQuality", Json.num 3)]]

/-- The departure entries `normalizeResponse` iterates over: the
range-for elements of the `departureList` member when it is present,
nothing otherwise. -/
def entriesOf (p : Json) : List Json :=
  if jContainsKey p "departureList" then jIter (jGet p "departureList") else []

/-- Spec-side reading of the structured-attribute override for one
accessibility property: scan the attribute objects in order and keep the
boolean value of the latest attribute whose name matches `nm`
case-insensitively (`none` when no attribute matches). -/
def specAttrFlag (nm : String) : Option Bool → List Json → Except Exn (Option Bool)
  | acc, [] => Except.ok acc
  | acc, a :: t => do
    let n ← jValueS a "name" ""
    let v ← jValueS a "value" ""
    specAttrFlag nm (if lowerStr n == nm then some (strToBool v) else acc) t

/-- Spec-side reading of the free-text hint fallback: some hint text
satisfies the given substring test. -/
def specHintScan (pred : String → Bool) : Bool → List Json → Except Exn Bool
  | acc, [] => Except.ok acc
  | acc, h :: t => do
    let txt ← hintText h
    specHintScan pred (acc || pred txt) t

/-- The structured attribute objects the detailed branch scans (present
`attrs` member that is an array; nothing otherwise). -/
def attrsOf (dep : Json) : List Json :=
  if jContainsKey dep "attrs" && (jGet dep "attrs").isArr then jArrOf (jGet dep "attrs") else []

/-- The serving-line hint objects the detailed branch scans. -/
def slHintsOf (sl : Json) : List Json :=
  if jContainsKey sl "hints" && (jGet sl "hints").isArr then jArrOf (jGet sl "hints") else []

/- ===== C10 ===== -/

/-- C10: the cache-key derivation is not injective: stop id
"42_detailed" with no flags and stop id "42" with detailed=true derive
the same key, although the stop identifiers differ. -/
theorem cacheKey_not_injective :
    cacheKeyOf "42_detailed" false false = cacheKeyOf "42" true false ∧
    ("42_detailed" : String) ≠ "42" := by
  refine ⟨rfl, by decide⟩

/- ===== C5 ===== -/

/-- C5 counterexample: the claim accepts case-insensitive "true"/"1"/
"yes", but the code rejects "yes" and "TRUE" (it compares
case-sensitively against "true" and "1" only). -/
theorem boolParam_yes_rejected :
    claimBoolParam (some "yes") = true ∧ parseBoolParam (some "yes") = false ∧
    claimBoolParam (some "TRUE") = true ∧ parseBoolParam (some "TRUE") = false :=
  ⟨rfl, rfl, rfl, rfl⟩

/-- C5 amended: a boolean query parameter is treated as true exactly
when its value is the exact string "true" or the exact string "1"
(case-sensitive); every other value, and absence, is false. -/
theorem boolParam_exact_true_or_one (p : Option String) :
    parseBoolParam p = true ↔ (p = some "true" ∨ p = some "1") := by
  cases p with
  | none => simp [parseBoolParam]
  | some s => simp [parseBoolParam]

/- ===== C6 ===== -/

/-- C6 counterexample: for the query "Karlsruhe" (which does not end in
any wildcard marker) the name pattern sent upstream is exactly
"Karlsruhe" itself, of length 9 — no marker was appended. -/
theorem search_query_sent_unchanged_concrete :
    assocFind (searchRequestParams "Karlsruhe") "name_sf" = some "Karlsruhe" ∧
    ("Karlsruhe" : String).length = 9 :=
  ⟨rfl, rfl⟩

/-- C6 amended: for every non-empty query, the resolver sends the query
to the upstream stop finder unchanged as the `name_sf` pattern; no
wildcard marker is ever appended. -/
theorem search_query_sent_unchanged (q : String) (h : q.isEmpty = false) :
    assocFind (searchRequestParams q) "name_sf" = some q := by
  simp [searchRequestParams, assocFind]

/-- Instance of `search_query_sent_unchanged` at the query "ka". -/
theorem search_query_sent_unchanged_inst :
    ("ka" : String).isEmpty = false ∧
    assocFind (searchRequestParams "ka") "name_sf" = some "ka" :=
  ⟨rfl, search_query_sent_unchanged "ka" rfl⟩

/- ===== C3 ===== -/

/-- C3: `normalizeResponse` does throw past its boundary: an unparsable
"countdown" string raises `std::invalid_argument` from the unguarded
`std::stoi`, as does an unparsable servingLine "motType"; a "countdown"
of the wrong (native-number) type raises `type_error` from
`value("countdown", "0")`. None of the three degrades to the fallback. -/
theorem normalize_throws_on_bad_countdown :
    normalizeResponse (Json.obj [("departureList",
      Json.arr [Json.obj [("countdown", Json.str "abc")]])]) false false
      = Except.error Exn.invalidArgument ∧
    normalizeResponse (Json.obj [("departureList",
      Json.arr [Json.obj [("servingLine", Json.obj [("motType", Json.str "x")])]])]) false false
      = Except.error Exn.invalidArgument ∧
    normalizeResponse (Json.obj [("departureList",
      Json.arr [Json.obj [("countdown", Json.num 5)]])]) false false
      = Except.error Exn.typeError :=
  ⟨rfl, rfl, rfl⟩

/- ===== C1 ===== -/

/-- C1 counterexample: for the non-empty query "karlsruhe" and an
upstream body listing qualities [1, 5], the handler returns the body
verbatim, so the returned qualities are [1, 5] — not non-increasing.
No sort (stable or otherwise) is performed. -/
theorem search_not_sorted_by_matchQuality :
    searchStopsProvider "karlsruhe" "" false 200 (some c1Body) = c1Body ∧
    matchQualities c1Body = [1, 5] ∧
    sortedNonIncr [1, 5] = false :=
  ⟨rfl, rfl, rfl⟩

/-- C1 amended: for every non-empty query whose upstream request
succeeds with parsable JSON, the resolver returns the upstream payload
verbatim. The upstream's relative order is therefore preserved in full
(in particular among equal-quality candidates), but the result is not
sorted by `matchQuality`. -/
theorem search_returns_upstream_verbatim (q city : String) (loc : Bool) (body : Json)
    (h : q.isEmpty = false) :
    searchStopsProvider q city loc 200 (some body) = body := by
  simp [searchStopsProvider, h]

/-- Instance of `search_returns_upstream_verbatim` at "ka". -/
theorem search_returns_upstream_verbatim_inst :
    ("ka" : String).isEmpty = false ∧
    searchStopsProvider "ka" "" false 200 (some (Json.arr [])) = Json.arr [] :=
  ⟨rfl, search_returns_upstream_verbatim "ka" "" false (Json.arr []) rfl⟩

/- ===== C2 ===== -/

/-- C2 counterexample: with no upstream candidate marked `isBest`, the
result still has zero `isBest = true` candidates while exactly one
candidate carries the maximal `matchQuality` — the two sets differ, so
no best-match inference happens. -/
theorem search_no_isBest_inference :
    isBestCount c2Body = 0 ∧
    searchStopsProvider "karlsruhe" "" false 200 (some c2Body) = c2Body ∧
    isBestCount (searchStopsProvider "karlsruhe" "" false 200 (some c2Body)) = 0 ∧
    maxQualityCount (searchStopsProvider "karlsruhe" "" false 200 (some c2Body)) = 1 :=
  ⟨rfl, rfl, rfl, rfl⟩

/-- C2 amended: the resolver performs no best-match inference: the
`isBest` markings of the result are exactly those supplied upstream, so
when no upstream candidate carries `isBest = true` the result contains
no candidate marked `isBest = true` either. -/
theorem search_preserves_isBest_absence (q city : String) (loc : Bool) (body : Json)
    (h : q.isEmpty = false) (hb : isBestCount body = 0) :
    isBestCount (searchStopsProvider q city loc 200 (some body)) = 0 := by
  simpa [searchStopsProvider, h] using hb

/-- Instance of `search_preserves_isBest_absence` at "ka". -/
theorem search_preserves_isBest_absence_inst :
    ("ka" : String).isEmpty = false ∧ isBestCount (Json.arr []) = 0 ∧
    isBestCount (searchStopsProvider "ka" "" false 200 (some (Json.arr []))) = 0 :=
  ⟨rfl, rfl, search_preserves_isBest_absence "ka" "" false (Json.arr []) rfl rfl⟩

/- ===== C8 ===== -/

/-- `stop_cache[k] = e` makes `find(k)` return `e`. -/
theorem cacheLookup_cachePut (c : List (String × CacheEntry)) (k : String) (e : CacheEntry) :
    cacheLookup (cachePut c k e) k = some e := by
  induction c with
  | nil => simp [cachePut, cacheLookup]
  | cons h t ih =>
    obtain ⟨k2, e2⟩ := h
    by_cases hk : (k2 == k) = true
    · simp [cachePut, cacheLookup, hk]
    · simp only [cachePut, hk, Bool.false_eq_true, if_false]
      simpa [cacheLookup, hk] using ih

/-- C8: a put followed immediately by a get on the same key returns the
stored value; a get once the entry's age reaches the 30-second TTL is a
miss, although the entry is still physically present in the map with its
stored payload (it is never actively deleted). -/
theorem cache_put_get_ttl (c : List (String × CacheEntry)) (k : String) (v : Json)
    (t now : Nat) (h : t + CACHE_TTL_SECONDS ≤ now) :
    cacheGet (cachePut c k ⟨v, t⟩) k t = some v ∧
    cacheGet (cachePut c k ⟨v, t⟩) k now = none ∧
    cacheLookup (cachePut c k ⟨v, t⟩) k = some ⟨v, t⟩ := by
  have hl := cacheLookup_cachePut c k ⟨v, t⟩
  refine ⟨?_, ?_, hl⟩
  · unfold cacheGet
    rw [hl]
    simp [CACHE_TTL_SECONDS]
  · unfold cacheGet
    rw [hl]
    have : ¬ (now - t < CACHE_TTL_SECONDS) := by
      simp only [CACHE_TTL_SECONDS] at h ⊢
      omega
    simp [this]

/-- Instance of `cache_put_get_ttl` on the empty cache at t = 0,
now = 30. -/
theorem cache_put_get_ttl_inst :
    (0 + CACHE_TTL_SECONDS ≤ 30) ∧
    (cacheGet (cachePut [] "42" ⟨Json.null, 0⟩) "42" 0 = some Json.null ∧
     cacheGet (cachePut [] "42" ⟨Json.null, 0⟩) "42" 30 = none ∧
     cacheLookup (cachePut [] "42" ⟨Json.null, 0⟩) "42" = some ⟨Json.null, 0⟩) :=
  ⟨by decide, cache_put_get_ttl [] "42" Json.null 0 30 (by decide)⟩

/- ===== C4 ===== -/

/-- Bind on an ok value reduces to the continuation. -/
@[simp] theorem exn_bind_ok {α β : Type} (a : α) (f : α → Except Exn β) :
    (Except.ok a >>= f : Except Exn β) = f a := rfl

/-- Bind on a raised exception propagates it. -/
@[simp] theorem exn_bind_error {α β : Type} (e : Exn) (f : α → Except Exn β) :
    ((Except.error e : Except Exn α) >>= f) = Except.error e := rfl

/-- `pure` in the exception monad is `ok`. -/
@[simp] theorem exn_pure {α : Type} (a : α) : (pure a : Except Exn α) = Except.ok a := rfl

/-- The departure loop yields exactly one record per iterated entry. -/
theorem normalizeList_length (d i : Bool) (xs ys : List Json)
    (h : normalizeList d i xs = Except.ok ys) : ys.length = xs.length := by
  induction xs generalizing ys with
  | nil =>
    simp only [normalizeList] at h
    injection h with h2
    rw [← h2]
  | cons dep t ih =>
    simp only [normalizeList] at h
    cases he : normalizeEntry d i dep with
    | error e => rw [he] at h; simp at h
    | ok item =>
      rw [he] at h
      simp only [exn_bind_ok] at h
      cases hr : normalizeList d i t with
      | error e => rw [hr] at h; simp at h
      | ok rest =>
        rw [hr] at h
        simp only [exn_bind_ok, exn_pure] at h
        injection h with h2
        rw [← h2]
        simp [ih rest hr]

/-- The optional hints group is empty or the single `hints` member. -/
theorem hintsFields_shape (d : Bool) (dep : Json) (hf : List (String × Json))
    (h : hintsFields d dep = Except.ok hf) :
    hf = [] ∨ ∃ a, hf = [("hints", a)] := by
  unfold hintsFields at h
  by_cases hc : (d && jContainsKey dep "hints" && (jGet dep "hints").isArr) = true
  · rw [if_pos hc] at h
    cases ht : hintTexts (jArrOf (jGet dep "hints")) with
    | error e => rw [ht] at h; simp at h
    | ok texts =>
      rw [ht] at h
      simp only [exn_bind_ok] at h
      cases hft : texts.filter (fun t => !(t.isEmpty)) with
      | nil =>
        rw [hft] at h
        simp only [exn_pure] at h
        injection h with h2
        exact Or.inl h2.symm
      | cons t0 ts =>
        rw [hft] at h
        simp only [exn_pure] at h
        injection h with h2
        exact Or.inr ⟨_, h2.symm⟩
  · rw [if_neg hc] at h
    simp only [exn_pure] at h
    injection h with h2
    exact Or.inl h2.symm

/-- A record built for an entry with no `servingLine` member carries no
`line`, `direction` or `mot` member at all. -/
theorem normalizeEntry_no_servingLine (dep : Json) (d i : Bool) (item : Json)
    (hsl : jContainsKey dep "servingLine" = false)
    (hok : normalizeEntry d i dep = Except.ok item) :
    jFind item "line" = none ∧ jFind item "direction" = none ∧ jFind item "mot" = none := by
  unfold normalizeEntry servingLineFields at hok
  rw [if_neg (by simp [hsl])] at hok
  simp only [exn_pure, exn_bind_ok] at hok
  cases hpf : platformField dep with
  | error e => rw [hpf] at hok; simp at hok
  | ok pf =>
    rw [hpf] at hok
    simp only [exn_bind_ok] at hok
    cases hmf : minutesField dep with
    | error e => rw [hmf] at hok; simp at hok
    | ok mins =>
      rw [hmf] at hok
      simp only [exn_bind_ok] at hok
      cases hhf : hintsFields d dep with
      | error e => rw [hhf] at hok; simp at hok
      | ok hf =>
        rw [hhf] at hok
        simp only [exn_bind_ok, exn_pure] at hok
        injection hok with h2
        rw [← h2]
        rcases hintsFields_shape d dep hf hhf with h3 | ⟨a, h3⟩ <;> rw [h3] <;>
          exact ⟨rfl, rfl, rfl⟩

/-- A record built for an entry whose `servingLine` object lacks
`number`, `direction` and `motType` carries the three sentinels. -/
theorem normalizeEntry_sentinels (dep : Json) (fs : List (String × Json)) (d i : Bool)
    (item : Json)
    (hsl : jFind dep "servingLine" = some (Json.obj fs))
    (hn : assocFind fs "number" = none)
    (hd : assocFind fs "direction" = none)
    (hm : assocFind fs "motType" = none)
    (hok : normalizeEntry d i dep = Except.ok item) :
    jFind item "line" = some (Json.str "?") ∧
    jFind item "direction" = some (Json.str "Unknown") ∧
    jFind item "mot" = some (Json.num (-1)) := by
  have hck : jContainsKey dep "servingLine" = true := by
    simp [jContainsKey, hsl]
  have hgt : jGet dep "servingLine" = Json.obj fs := by
    simp [jGet, hsl]
  unfold normalizeEntry servingLineFields at hok
  rw [if_pos hck, hgt] at hok
  have hline : jValueS (Json.obj fs) "number" "?" = Except.ok "?" := by
    simp [jValueS, hn]
  have hdir : jValueS (Json.obj fs) "direction" "Unknown" = Except.ok "Unknown" := by
    simp [jValueS, hd]
  have hmot : jContainsKey (Json.obj fs) "motType" = false := by
    simp [jContainsKey, jFind, hm]
  rw [hline] at hok
  simp only [exn_bind_ok] at hok
  rw [hdir] at hok
  simp only [exn_bind_ok] at hok
  have hmo : motOf (Json.obj fs) = Except.ok (-1) := by
    simp [motOf, hmot]
  rw [hmo] at hok
  simp only [exn_bind_ok] at hok
  cases hdf : detailFieldsOf d dep (Json.obj fs) with
  | error e => rw [hdf] at hok; simp at hok
  | ok df =>
    rw [hdf] at hok
    simp only [exn_bind_ok, exn_pure] at hok
    cases hpf : platformField dep with
    | error e => rw [hpf] at hok; simp at hok
    | ok pf =>
      rw [hpf] at hok
      simp only [exn_bind_ok] at hok
      cases hmf : minutesField dep with
      | error e => rw [hmf] at hok; simp at hok
      | ok mins =>
        rw [hmf] at hok
        simp only [exn_bind_ok] at hok
        cases hhf : hintsFields d dep with
        | error e => rw [hhf] at hok; simp at hok
        | ok hf =>
          rw [hhf] at hok
          simp only [exn_bind_ok, exn_pure] at hok
          injection hok with h2
          rw [← h2]
          exact ⟨rfl, rfl, rfl⟩

/-- C4 counterexample: a raw entry with no serving-line sub-object does
produce one record, but that record omits `line`, `direction` and `mot`
entirely instead of carrying the claimed sentinels. -/
theorem normalize_entry_without_servingLine_concrete :
    normalizeResponse (Json.obj [("departureList", Json.arr [Json.obj []])]) false false
      = Except.ok (Json.arr [Json.obj [("platform", Json.str "Unknown"),
          ("minutes_remaining", Json.num 0), ("is_realtime", Json.bool false)]]) ∧
    jFind (Json.obj [("platform", Json.str "Unknown"), ("minutes_remaining", Json.num 0),
          ("is_realtime", Json.bool false)]) "line" = none ∧
    jFind (Json.obj [("platform", Json.str "Unknown"), ("minutes_remaining", Json.num 0),
          ("is_realtime", Json.bool false)]) "direction" = none ∧
    jFind (Json.obj [("platform", Json.str "Unknown"), ("minutes_remaining", Json.num 0),
          ("is_realtime", Json.bool false)]) "mot" = none :=
  ⟨rfl, rfl, rfl, rfl⟩

/-- C4 amended: whenever `normalizeResponse` returns (does not throw),
it emits exactly one record per iterated `departureList` entry; a record
whose raw entry has no `servingLine` member omits `line`, `direction`
and `mot` entirely (it is not dropped, and not sentinel-filled); the
sentinels `line="?"`, `direction="Unknown"`, `mot=-1` appear when
`servingLine` is present as an object lacking the `number`, `direction`
and `motType` members. -/
theorem normalize_one_record_per_entry :
    (∀ (p : Json) (d i : Bool) (out : Json), normalizeResponse p d i = Except.ok out →
      ∃ items, out = Json.arr items ∧ items.length = (entriesOf p).length) ∧
    (∀ (dep : Json) (d i : Bool) (item : Json), jContainsKey dep "servingLine" = false →
      normalizeEntry d i dep = Except.ok item →
      jFind item "line" = none ∧ jFind item "direction" = none ∧ jFind item "mot" = none) ∧
    (∀ (dep : Json) (fs : List (String × Json)) (d i : Bool) (item : Json),
      jFind dep "servingLine" = some (Json.obj fs) →
      assocFind fs "number" = none → assocFind fs "direction" = none →
      assocFind fs "motType" = none →
      normalizeEntry d i dep = Except.ok item →
      jFind item "line" = some (Json.str "?") ∧
      jFind item "direction" = some (Json.str "Unknown") ∧
      jFind item "mot" = some (Json.num (-1))) := by
  refine ⟨?_, normalizeEntry_no_servingLine, normalizeEntry_sentinels⟩
  intro p d i out h
  unfold normalizeResponse at h
  by_cases hc : jContainsKey p "departureList" = true
  · rw [if_neg (by simp [hc])] at h
    cases hl : normalizeList d i (jIter (jGet p "departureList")) with
    | error e => rw [hl] at h; simp at h
    | ok items =>
      rw [hl] at h
      simp only [exn_bind_ok, exn_pure] at h
      injection h with h2
      refine ⟨items, h2.symm, ?_⟩
      rw [entriesOf, if_pos hc]
      exact normalizeList_length d i _ items hl
  · rw [if_pos (by simp [Bool.not_eq_true] at hc; simp [hc])] at h
    injection h with h2
    refine ⟨[], h2.symm, ?_⟩
    simp [entriesOf, hc]

/-- Instance of `normalize_one_record_per_entry`: one record for the one
entry of a board whose entry is empty; field omission for the empty
entry; sentinels for an empty `servingLine` object. -/
theorem normalize_one_record_per_entry_inst :
    (normalizeResponse (Json.obj [("departureList", Json.arr [Json.obj []])]) false false
       = Except.ok (Json.arr [Json.obj [("platform", Json.str "Unknown"),
           ("minutes_remaining", Json.num 0), ("is_realtime", Json.bool false)]]) ∧
     (∃ items, (Json.arr [Json.obj [("platform", Json.str "Unknown"),
           ("minutes_remaining", Json.num 0), ("is_realtime", Json.bool false)]])
         = Json.arr items ∧
       items.length
         = (entriesOf (Json.obj [("departureList", Json.arr [Json.obj []])])).length)) ∧
    (jContainsKey (Json.obj []) "servingLine" = false ∧
     (jFind (Json.obj [("platform", Json.str "Unknown"), ("minutes_remaining", Json.num 0),
           ("is_realtime", Json.bool false)]) "line" = none ∧
      jFind (Json.obj [("platform", Json.str "Unknown"), ("minutes_remaining", Json.num 0),
           ("is_realtime", Json.bool false)]) "direction" = none ∧
      jFind (Json.obj [("platform", Json.str "Unknown"), ("minutes_remaining", Json.num 0),
           ("is_realtime", Json.bool false)]) "mot" = none)) ∧
    (jFind (Json.obj [("servingLine", Json.obj [])]) "servingLine" = some (Json.obj []) ∧
     (jFind (Json.obj [("line", Json.str "?"), ("direction", Json.str "Unknown"),
           ("mot", Json.num (-1)), ("platform", Json.str "Unknown"),
           ("minutes_remaining", Json.num 0), ("is_realtime", Json.bool false)]) "line"
         = some (Json.str "?") ∧
      jFind (Json.obj [("line", Json.str "?"), ("direction", Json.str "Unknown"),
           ("mot", Json.num (-1)), ("platform", Json.str "Unknown"),
           ("minutes_remaining", Json.num 0), ("is_realtime", Json.bool false)]) "direction"
         = some (Json.str "Unknown") ∧
      jFind (Json.obj [("line", Json.str "?"), ("direction", Json.str "Unknown"),
           ("mot", Json.num (-1)), ("platform", Json.str "Unknown"),
           ("minutes_remaining", Json.num 0), ("is_realtime", Json.bool false)]) "mot"
         = some (Json.num (-1)))) :=
  ⟨⟨rfl, normalize_one_record_per_entry.1 _ false false _ rfl⟩,
   ⟨rfl, normalize_one_record_per_entry.2.1 (Json.obj []) false false _ rfl rfl⟩,
   ⟨rfl, normalize_one_record_per_entry.2.2 (Json.obj [("servingLine", Json.obj [])])
      [] false false _ rfl rfl rfl rfl rfl⟩⟩

/- ===== C7 ===== -/

/-- `isPrefixOf` agrees with the existence of a completing suffix. -/
theorem isPrefixOfE (a : List Char) : ∀ b : List Char,
    a.isPrefixOf b = true ↔ ∃ t, a ++ t = b := by
  induction a with
  | nil =>
    intro b
    simp [List.isPrefixOf]
  | cons x xs ih =>
    intro b
    cases b with
    | nil => simp [List.isPrefixOf]
    | cons y ys =>
      simp only [List.isPrefixOf, Bool.and_eq_true, beq_iff_eq, ih]
      constructor
      · rintro ⟨hxy, t, ht⟩
        exact ⟨t, by rw [List.cons_append, hxy, ht]⟩
      · rintro ⟨t, ht⟩
        rw [List.cons_append] at ht
        injection ht with h1 h2
        exact ⟨h1, t, h2⟩

/-- `std::string::find` succeeds exactly when the haystack splits around
the needle. -/
theorem strHasE (hay needle : List Char) :
    strHas hay needle = true ↔ ∃ pre post, hay = pre ++ needle ++ post := by
  induction hay with
  | nil =>
    constructor
    · intro h
      have hn : needle = [] := by
        cases needle with
        | nil => rfl
        | cons c t => simp [strHas] at h
      exact ⟨[], [], by simp [hn]⟩
    · rintro ⟨pre, post, hp⟩
      cases pre <;> cases needle <;> simp_all [strHas]
  | cons c t ih =>
    simp only [strHas, Bool.or_eq_true, ih, isPrefixOfE]
    constructor
    · rintro (⟨ts, hts⟩ | ⟨pre, post, hp⟩)
      · exact ⟨[], ts, by simp [← hts]⟩
      · exact ⟨c :: pre, post, by simp [hp]⟩
    · rintro ⟨pre, post, hp⟩
      cases pre with
      | nil =>
        exact Or.inl ⟨post, by simpa using hp.symm⟩
      | cons p ps =>
        rw [List.cons_append] at hp
        injection hp with h1 h2
        exact Or.inr ⟨ps, post, h2⟩

/-- The track filter keeps records in input order (its output is a
sublist of its input). -/
theorem trackFilterRoute_sublist : ∀ (records : List Json) (req : String) (out : List Json),
    trackFilterRoute records req = Except.ok out → List.Sublist out records := by
  intro records
  induction records with
  | nil =>
    intro req out h
    simp only [trackFilterRoute] at h
    injection h with h2
    rw [← h2]
  | cons dep t ih =>
    intro req out h
    simp only [trackFilterRoute] at h
    cases hp : recordPlatform dep with
    | error e => rw [hp] at h; simp at h
    | ok p =>
      rw [hp] at h
      simp only [exn_bind_ok] at h
      cases hr : trackFilterRoute t req with
      | error e => rw [hr] at h; simp at h
      | ok rest =>
        rw [hr] at h
        simp only [exn_bind_ok] at h
        by_cases hm : trackMatch p.toList req.toList = true
        · rw [if_pos hm] at h
          simp only [exn_pure] at h
          injection h with h2
          rw [← h2]
          exact List.Sublist.cons₂ dep (ih req rest hr)
        · rw [if_neg hm] at h
          simp only [exn_pure] at h
          injection h with h2
          rw [← h2]
          exact List.Sublist.cons dep (ih req rest hr)

/-- C7 counterexample: platform "10 Gleis 1" against request "1". Tier 1
(equality) fails; the claim's tier 2 predicate fails (the platform does
start with "1" but the following character '0' is a digit); the claim's
tier 3 succeeds (the platform contains " 1"). "One of the three tiers
succeeds", yet the code rejects the record: its else-if chain never
reaches the contains check once the prefix guard has fired. -/
theorem trackMatch_blocks_contains_tier :
    trackMatch "10 Gleis 1".toList "1".toList = false ∧
    ("10 Gleis 1".toList == "1".toList) = false ∧
    "1".toList.isPrefixOf "10 Gleis 1".toList = true ∧
    (("10 Gleis 1".toList).getD "1".toList.length ' ').isDigit = true ∧
    strHas "10 Gleis 1".toList (' ' :: "1".toList) = true :=
  ⟨rfl, rfl, rfl, rfl, rfl⟩

/-- C7 amended: the filter preserves input order, and a record matches
according to the guarded chain: exact equality wins; otherwise, when the
platform is strictly longer than the token and starts with it, the
record matches exactly when the next character is not a digit (the
contains tier is not consulted); only when that guard fails does the
contains-with-boundary tier (" "+token or "Gleis "+token occurs) decide.
The four documented examples behave as claimed. -/
theorem trackFilter_guarded_tiers :
    (∀ (records : List Json) (req : String) (out : List Json),
      trackFilterRoute records req = Except.ok out → List.Sublist out records) ∧
    (∀ p r : List Char, trackMatch p r = true ↔
      (p = r ∨
       ((r.length < p.length ∧ r.isPrefixOf p = true) ∧
        (p.getD r.length ' ').isDigit = false) ∨
       (¬(r.length < p.length ∧ r.isPrefixOf p = true) ∧
        ((∃ pre post, p = pre ++ (' ' :: r) ++ post) ∨
         (∃ pre post, p = pre ++ ("Gleis ".toList ++ r) ++ post))))) ∧
    (trackMatch "1".toList "1".toList = true ∧
     trackMatch "10".toList "1".toList = false ∧
     trackMatch "1 (U)".toList "1".toList = true ∧
     trackMatch "Gleis 1".toList "1".toList = true) := by
  refine ⟨trackFilterRoute_sublist, ?_, rfl, rfl, rfl, rfl⟩
  intro p r
  by_cases h1 : (p == r) = true
  · have hp : p = r := by simpa using h1
    simp [trackMatch, hp]
  · have hnp : ¬ p = r := by simpa using h1
    by_cases h2 : (decide (r.length < p.length) && r.isPrefixOf p) = true
    · have hg : r.length < p.length ∧ r.isPrefixOf p = true := by
        rw [Bool.and_eq_true] at h2
        exact ⟨of_decide_eq_true h2.1, h2.2⟩
      rw [trackMatch, if_neg h1, if_pos h2, Bool.not_eq_true']
      simp [hnp, hg.1, hg.2]
    · have hng : ¬(r.length < p.length ∧ r.isPrefixOf p = true) := by
        rintro ⟨hl, hpre⟩
        exact h2 (by rw [Bool.and_eq_true]; exact ⟨decide_eq_true hl, hpre⟩)
      rw [trackMatch, if_neg h1, if_neg h2]
      by_cases h3 : (strHas p (' ' :: r) || strHas p ("Gleis ".toList ++ r)) = true
      · rw [if_pos h3]
        rw [Bool.or_eq_true] at h3
        refine ⟨fun _ => Or.inr (Or.inr ⟨hng, ?_⟩), fun _ => rfl⟩
        rcases h3 with h | h
        · exact Or.inl ((strHasE p (' ' :: r)).mp h)
        · exact Or.inr ((strHasE p ("Gleis ".toList ++ r)).mp h)
      · rw [if_neg h3]
        rw [Bool.or_eq_true, not_or] at h3
        obtain ⟨h3a, h3b⟩ := h3
        constructor
        · intro h
          exact absurd h (by simp)
        · rintro (hp | ⟨hg2, _⟩ | ⟨_, hc | hc⟩)
          · exact absurd hp hnp
          · exact absurd hg2 hng
          · exact absurd ((strHasE p (' ' :: r)).mpr hc) h3a
          · exact absurd ((strHasE p ("Gleis ".toList ++ r)).mpr hc) h3b

/-- Instance of `trackFilter_guarded_tiers`: filtering a two-record list
by track "1" keeps only the platform-"1" record, a sublist of the
input. -/
theorem trackFilter_guarded_tiers_inst :
    trackFilterRoute [Json.obj [("platform", Json.str "1")],
        Json.obj [("platform", Json.str "10")]] "1"
      = Except.ok [Json.obj [("platform", Json.str "1")]] ∧
    List.Sublist [Json.obj [("platform", Json.str "1")]]
      [Json.obj [("platform", Json.str "1")], Json.obj [("platform", Json.str "10")]] :=
  ⟨rfl, trackFilter_guarded_tiers.1 _ "1" _ rfl⟩

/- ===== C9 ===== -/

/-- Map over an ok value applies the function. -/
@[simp] theorem exn_map_ok {α β : Type} (f : α → β) (a : α) :
    (Except.ok a : Except Exn α).map f = Except.ok (f a) := rfl

/-- Map over a raised exception propagates it. -/
@[simp] theorem exn_map_error {α β : Type} (f : α → β) (e : Exn) :
    (Except.error e : Except Exn α).map f = Except.error e := rfl

/-- The code's four-flag attribute scan computes, for the low-floor
property, exactly the latest case-insensitive `PlanLowFloorVehicle`
match that the spec-side single-property scan computes. -/
theorem scanAttrs_plf : ∀ (xs : List Json) (s : AttrState),
    (scanAttrs s xs).map (fun s2 => if s2.hasPlanLowFloor then some s2.planLowFloor else none)
      = specAttrFlag "planlowfloorvehicle"
          (if s.hasPlanLowFloor then some s.planLowFloor else none) xs := by
  intro xs
  induction xs with
  | nil => intro s; rfl
  | cons a t ih =>
    intro s
    simp only [scanAttrs, specAttrFlag]
    unfold attrStep
    cases hn : jValueS a "name" "" with
    | error e => simp
    | ok n =>
      simp only [exn_bind_ok]
      cases hv : jValueS a "value" "" with
      | error e => simp
      | ok v =>
        simp only [exn_bind_ok]
        by_cases hl : (lowerStr n == "planlowfloorvehicle") = true
        · rw [if_pos hl]
          simp only [exn_pure, exn_bind_ok]
          rw [ih]
          simp [hl]
        · rw [if_neg hl]
          by_cases hw : (lowerStr n == "planwheelchairaccess") = true
          · rw [if_pos hw]
            simp only [exn_pure, exn_bind_ok]
            rw [ih]
            simp [hl]
          · rw [if_neg hw]
            simp only [exn_pure, exn_bind_ok]
            rw [ih]
            simp [hl]

/-- The code's four-flag attribute scan computes, for the wheelchair
property, exactly the latest case-insensitive `PlanWheelchairAccess`
match that the spec-side single-property scan computes. -/
theorem scanAttrs_pwa : ∀ (xs : List Json) (s : AttrState),
    (scanAttrs s xs).map (fun s2 => if s2.hasPlanWheelchair then some s2.planWheelchair else none)
      = specAttrFlag "planwheelchairaccess"
          (if s.hasPlanWheelchair then some s.planWheelchair else none) xs := by
  intro xs
  induction xs with
  | nil => intro s; rfl
  | cons a t ih =>
    intro s
    simp only [scanAttrs, specAttrFlag]
    unfold attrStep
    cases hn : jValueS a "name" "" with
    | error e => simp
    | ok n =>
      simp only [exn_bind_ok]
      cases hv : jValueS a "value" "" with
      | error e => simp
      | ok v =>
        simp only [exn_bind_ok]
        by_cases hl : (lowerStr n == "planlowfloorvehicle") = true
        · have heq : lowerStr n = "planlowfloorvehicle" := by simpa using hl
          have hw : ¬((lowerStr n == "planwheelchairaccess") = true) := by simp [heq]
          rw [if_pos hl, if_neg hw]
          simp only [exn_pure, exn_bind_ok]
          rw [ih]
        · rw [if_neg hl]
          by_cases hw : (lowerStr n == "planwheelchairaccess") = true
          · rw [if_pos hw]
            simp only [exn_pure, exn_bind_ok]
            rw [ih]
            simp [hw]
          · rw [if_neg hw]
            simp only [exn_pure, exn_bind_ok]
            rw [ih]
            simp [hw]

/-- The code's paired hint scan computes, per component, exactly the
spec-side any-hint-contains-a-known-substring scan. -/
theorem scanHints_spec : ∀ (xs : List Json) (p : Bool × Bool),
    (scanHints p xs).map Prod.fst = specHintScan lowFloorHintIn p.1 xs ∧
    (scanHints p xs).map Prod.snd = specHintScan wheelchairHintIn p.2 xs := by
  intro xs
  induction xs with
  | nil => intro p; exact ⟨rfl, rfl⟩
  | cons h t ih =>
    intro p
    simp only [scanHints, specHintScan]
    cases ht : hintText h with
    | error e => simp
    | ok txt =>
      simp only [exn_bind_ok]
      exact ih (p.1 || lowFloorHintIn txt, p.2 || wheelchairHintIn txt)

/-- The attribute-scan guard agrees with the spec-side scan over
`attrsOf`. -/
theorem astOf_spec (dep : Json) (ast : AttrState) (h : astOf dep = Except.ok ast) :
    specAttrFlag "planlowfloorvehicle" none (attrsOf dep)
        = Except.ok (if ast.hasPlanLowFloor then some ast.planLowFloor else none) ∧
    specAttrFlag "planwheelchairaccess" none (attrsOf dep)
        = Except.ok (if ast.hasPlanWheelchair then some ast.planWheelchair else none) := by
  unfold astOf at h
  by_cases hc : (jContainsKey dep "attrs" && (jGet dep "attrs").isArr) = true
  · rw [if_pos hc] at h
    have h1 := scanAttrs_plf (jArrOf (jGet dep "attrs")) initAttrState
    have h2 := scanAttrs_pwa (jArrOf (jGet dep "attrs")) initAttrState
    rw [h] at h1 h2
    unfold attrsOf
    rw [if_pos hc]
    exact ⟨h1.symm, h2.symm⟩
  · rw [if_neg hc] at h
    simp only [exn_pure] at h
    injection h with h2
    unfold attrsOf
    rw [if_neg hc, ← h2]
    exact ⟨rfl, rfl⟩

/-- The hint-scan guard agrees with the spec-side scan over
`slHintsOf`. -/
theorem hintFlagsOf_spec (sl : Json) (hs : Bool × Bool) (h : hintFlagsOf sl = Except.ok hs) :
    specHintScan lowFloorHintIn false (slHintsOf sl) = Except.ok hs.1 ∧
    specHintScan wheelchairHintIn false (slHintsOf sl) = Except.ok hs.2 := by
  unfold hintFlagsOf at h
  by_cases hc : (jContainsKey sl "hints" && (jGet sl "hints").isArr) = true
  · rw [if_pos hc] at h
    have h1 := (scanHints_spec (jArrOf (jGet sl "hints")) (false, false)).1
    have h2 := (scanHints_spec (jArrOf (jGet sl "hints")) (false, false)).2
    rw [h] at h1 h2
    unfold slHintsOf
    rw [if_pos hc]
    exact ⟨h1.symm, h2.symm⟩
  · rw [if_neg hc] at h
    simp only [exn_pure] at h
    injection h with h2
    unfold slHintsOf
    rw [if_neg hc, ← h2]
    exact ⟨rfl, rfl⟩

/-- The delay field group is empty or a single `delay_minutes` member. -/
theorem delayFieldsOf_shape (i : Bool) (sl : Json) :
    delayFieldsOf i sl = [] ∨ ∃ n, delayFieldsOf i sl = [("delay_minutes", Json.num n)] := by
  unfold delayFieldsOf
  by_cases hc : (i && jContainsKey sl "delay") = true
  · rw [if_pos hc]
    cases hd : (do
        let s ← jValueS sl "delay" "0"
        stoi s : Except Exn Int) with
    | ok n => exact Or.inr ⟨n, rfl⟩
    | error e => exact Or.inr ⟨0, rfl⟩
  · rw [if_neg hc]
    exact Or.inl rfl

/-- `getD` over an optional produced by a guard is the guarded value. -/
theorem optGetD_if (b : Bool) (x y : Bool) :
    (if b then some x else none).getD y = if b then x else y := by
  cases b <;> rfl

/-- A successful detailed block is the two accessibility members (as the
spec computes them) followed by the optional train members. -/
theorem detailedFields_spec (dep sl : Json) (df : List (String × Json))
    (h : detailedFields dep sl = Except.ok df) :
    ∃ (ast : AttrState) (hs : Bool × Bool) (trains : List (String × Json)),
      specAttrFlag "planlowfloorvehicle" none (attrsOf dep)
          = Except.ok (if ast.hasPlanLowFloor then some ast.planLowFloor else none) ∧
      specAttrFlag "planwheelchairaccess" none (attrsOf dep)
          = Except.ok (if ast.hasPlanWheelchair then some ast.planWheelchair else none) ∧
      specHintScan lowFloorHintIn false (slHintsOf sl) = Except.ok hs.1 ∧
      specHintScan wheelchairHintIn false (slHintsOf sl) = Except.ok hs.2 ∧
      df = [("low_floor", Json.bool (if ast.hasPlanLowFloor then ast.planLowFloor else hs.1)),
            ("wheelchair_accessible", Json.bool
              ((if ast.hasPlanWheelchair then ast.planWheelchair else hs.2) ||
               (if ast.hasPlanLowFloor then ast.planLowFloor else hs.1)))] ++ trains := by
  unfold detailedFields at h
  cases ha : astOf dep with
  | error e => rw [ha] at h; simp at h
  | ok ast =>
    rw [ha] at h
    simp only [exn_bind_ok] at h
    cases hh : hintFlagsOf sl with
    | error e => rw [hh] at h; simp at h
    | ok hs =>
      rw [hh] at h
      simp only [exn_bind_ok] at h
      cases ht : trainTypeFieldsOf sl with
      | error e => rw [ht] at h; simp at h
      | ok tt =>
        rw [ht] at h
        simp only [exn_bind_ok] at h
        cases hl : trainLenFieldsOf sl with
        | error e => rw [hl] at h; simp at h
        | ok tl =>
          rw [hl] at h
          simp only [exn_bind_ok, exn_pure] at h
          injection h with h2
          obtain ⟨ha1, ha2⟩ := astOf_spec dep ast ha
          obtain ⟨hh1, hh2⟩ := hintFlagsOf_spec sl hs hh
          refine ⟨ast, hs, tt ++ tl, ha1, ha2, hh1, hh2, ?_⟩
          rw [← h2]
          simp [List.append_assoc]

/-- C9: in detailed mode, for every departure record built from an entry
with a serving line: the structured attribute override (matched by
attribute name, case-insensitive) is used directly when present and the
hint scan is ignored (`Option.getD`: the attribute value when `some`,
the hint-scan result otherwise); otherwise the property comes from the
known German/English substrings over the serving-line hints; and the
emitted `wheelchair_accessible` equals the wheelchair result OR the
low-floor result. -/
theorem detailed_accessibility_precedence (dep : Json) (i : Bool) (item : Json)
    (hsl : jContainsKey dep "servingLine" = true)
    (hok : normalizeEntry true i dep = Except.ok item) :
    ∃ (aLF aWC : Option Bool) (hLF hWC : Bool),
      specAttrFlag "planlowfloorvehicle" none (attrsOf dep) = Except.ok aLF ∧
      specAttrFlag "planwheelchairaccess" none (attrsOf dep) = Except.ok aWC ∧
      specHintScan lowFloorHintIn false (slHintsOf (jGet dep "servingLine")) = Except.ok hLF ∧
      specHintScan wheelchairHintIn false (slHintsOf (jGet dep "servingLine")) = Except.ok hWC ∧
      jFind item "low_floor" = some (Json.bool (aLF.getD hLF)) ∧
      jFind item "wheelchair_accessible"
        = some (Json.bool (aWC.getD hWC || aLF.getD hLF)) := by
  unfold normalizeEntry servingLineFields at hok
  rw [if_pos hsl] at hok
  cases hline : jValueS (jGet dep "servingLine") "number" "?" with
  | error e => rw [hline] at hok; simp at hok
  | ok line =>
    rw [hline] at hok
    simp only [exn_bind_ok] at hok
    cases hdir : jValueS (jGet dep "servingLine") "direction" "Unknown" with
    | error e => rw [hdir] at hok; simp at hok
    | ok dir =>
      rw [hdir] at hok
      simp only [exn_bind_ok] at hok
      cases hmo : motOf (jGet dep "servingLine") with
      | error e => rw [hmo] at hok; simp at hok
      | ok mot =>
        rw [hmo] at hok
        simp only [exn_bind_ok] at hok
        cases hdf : detailFieldsOf true dep (jGet dep "servingLine") with
        | error e => rw [hdf] at hok; simp at hok
        | ok df =>
          rw [hdf] at hok
          simp only [exn_bind_ok] at hok
          cases hpf : platformField dep with
          | error e => rw [hpf] at hok; simp at hok
          | ok pf =>
            rw [hpf] at hok
            simp only [exn_bind_ok] at hok
            cases hmf : minutesField dep with
            | error e => rw [hmf] at hok; simp at hok
            | ok mins =>
              rw [hmf] at hok
              simp only [exn_bind_ok] at hok
              cases hhf : hintsFields true dep with
              | error e => rw [hhf] at hok; simp at hok
              | ok hf =>
                rw [hhf] at hok
                simp only [exn_bind_ok, exn_pure] at hok
                injection hok with h2
                have hdf2 : detailedFields dep (jGet dep "servingLine") = Except.ok df := hdf
                obtain ⟨ast, hs, trains, ha1, ha2, hh1, hh2, hdfe⟩ :=
                  detailedFields_spec dep (jGet dep "servingLine") df hdf2
                refine ⟨(if ast.hasPlanLowFloor then some ast.planLowFloor else none),
                        (if ast.hasPlanWheelchair then some ast.planWheelchair else none),
                        hs.1, hs.2, ha1, ha2, hh1, hh2, ?_, ?_⟩
                · rw [← h2, hdfe]
                  simp only [optGetD_if]
                  rcases delayFieldsOf_shape i (jGet dep "servingLine") with hd0 | ⟨n, hd0⟩ <;>
                    rw [hd0] <;> rfl
                · rw [← h2, hdfe]
                  simp only [optGetD_if]
                  rcases delayFieldsOf_shape i (jGet dep "servingLine") with hd0 | ⟨n, hd0⟩ <;>
                    rw [hd0] <;> rfl

/-- Instance of `detailed_accessibility_precedence`: a departure whose
`attrs` carry `planWheelchairAccess = "1"` and whose serving line has no
hints; the attribute is used directly (wheelchair true, low-floor
false). -/
theorem detailed_accessibility_precedence_inst :
    jContainsKey (Json.obj [("servingLine", Json.obj []),
        ("attrs", Json.arr [Json.obj [("name", Json.str "planWheelchairAccess"),
          ("value", Json.str "1")]])]) "servingLine" = true ∧
    normalizeEntry true false (Json.obj [("servingLine", Json.obj []),
        ("attrs", Json.arr [Json.obj [("name", Json.str "planWheelchairAccess"),
          ("value", Json.str "1")]])])
      = Except.ok (Json.obj [("line", Json.str "?"), ("direction", Json.str "Unknown"),
          ("mot", Json.num (-1)), ("low_floor", Json.bool false),
          ("wheelchair_accessible", Json.bool true), ("platform", Json.str "Unknown"),
          ("minutes_remaining", Json.num 0), ("is_realtime", Json.bool false)]) ∧
    (∃ (aLF aWC : Option Bool) (hLF hWC : Bool),
      specAttrFlag "planlowfloorvehicle" none
          (attrsOf (Json.obj [("servingLine", Json.obj []),
            ("attrs", Json.arr [Json.obj [("name", Json.str "planWheelchairAccess"),
              ("value", Json.str "1")]])])) = Except.ok aLF ∧
      specAttrFlag "planwheelchairaccess" none
          (attrsOf (Json.obj [("servingLine", Json.obj []),
            ("attrs", Json.arr [Json.obj [("name", Json.str "planWheelchairAccess"),
              ("value", Json.str "1")]])])) = Except.ok aWC ∧
      specHintScan lowFloorHintIn false
          (slHintsOf (jGet (Json.obj [("servingLine", Json.obj []),
            ("attrs", Json.arr [Json.obj [("name", Json.str "planWheelchairAccess"),
              ("value", Json.str "1")]])]) "servingLine")) = Except.ok hLF ∧
      specHintScan wheelchairHintIn false
          (slHintsOf (jGet (Json.obj [("servingLine", Json.obj []),
            ("attrs", Json.arr [Json.obj [("name", Json.str "planWheelchairAccess"),
              ("value", Json.str "1")]])]) "servingLine")) = Except.ok hWC ∧
      jFind (Json.obj [("line", Json.str "?"), ("direction", Json.str "Unknown"),
          ("mot", Json.num (-1)), ("low_floor", Json.bool false),
          ("wheelchair_accessible", Json.bool true), ("platform", Json.str "Unknown"),
          ("minutes_remaining", Json.num 0), ("is_realtime", Json.bool false)]) "low_floor"
        = some (Json.bool (aLF.getD hLF)) ∧
      jFind (Json.obj [("line", Json.str "?"), ("direction", Json.str "Unknown"),
          ("mot", Json.num (-1)), ("low_floor", Json.bool false),
          ("wheelchair_accessible", Json.bool true), ("platform", Json.str "Unknown"),
          ("minutes_remaining", Json.num 0), ("is_realtime", Json.bool false)])
          "wheelchair_accessible"
        = some (Json.bool (aWC.getD hWC || aLF.getD hLF))) :=
  ⟨rfl, rfl, detailed_accessibility_precedence _ false _ rfl rfl⟩
